import Mathlib

/-!
Verification of the in-memory entity store of the pytest-demo repository
(`src/api.py`): users and tasks kept in two insertion-ordered dictionaries,
with create/read/update/delete operations, conjunctive task filtering,
cascade deletion of a user's tasks, and the CLI-side task summary
(`src/cli.py`, `TaskManager.get_user_task_summary`).

Python dictionaries (`users_db`, `tasks_db`) are modelled as association
lists in insertion order: assigning to an existing key replaces the value
in place, assigning a new key appends, `del` removes the entry, and
`.values()` is the list of values in order.
-/

/-- The two error conditions the endpoints raise: HTTP 404 ("not found")
and HTTP 400 ("User not found" on an unresolvable `user_id` reference). -/
inductive ApiError where
  | notFound
  | invalidReference
deriving DecidableEq, Repr

/-- A Python dict keyed by strings, in insertion order. -/
abbrev Dict (α : Type) := List (String × α)

/-- `d[k]` lookup: first (and in a real dict, only) entry with key `k`. -/
def dictGet {α : Type} (d : Dict α) (k : String) : Option α :=
  match d with
  | [] => none
  | (k', v) :: rest => if k' = k then some v else dictGet rest k

/-- `k in d`. -/
def dictContains {α : Type} (d : Dict α) (k : String) : Bool :=
  (dictGet d k).isSome

/-- `d[k] = v`: replace in place if the key exists, else append. -/
def dictSet {α : Type} (d : Dict α) (k : String) (v : α) : Dict α :=
  match d with
  | [] => [(k, v)]
  | (k', v') :: rest =>
      if k' = k then (k, v) :: rest else (k', v') :: dictSet rest k v

/-- `del d[k]`. -/
def dictDel {α : Type} (d : Dict α) (k : String) : Dict α :=
  d.filter (fun p => !(p.1 == k))

/-- `d.values()`. -/
def dictValues {α : Type} (d : Dict α) : List α :=
  d.map Prod.snd

/-- Request body of the user endpoints (pydantic model `User`). -/
structure UserIn where
  name : String
  email : String
  age : Option Int := none
deriving DecidableEq, Repr

/-- Stored/returned user record (`user.dict()` with `id` added;
pydantic `UserResponse`). -/
structure UserR where
  id : String
  name : String
  email : String
  age : Option Int := none
deriving DecidableEq, Repr

/-- Request body of the task endpoints (pydantic model `Task`). -/
structure TaskIn where
  title : String
  description : Option String := none
  completed : Bool := false
  user_id : Option String := none
deriving DecidableEq, Repr

/-- Stored/returned task record (`task.dict()` with `id` added;
pydantic `TaskResponse`). -/
structure TaskR where
  id : String
  title : String
  description : Option String := none
  completed : Bool := false
  user_id : Option String := none
deriving DecidableEq, Repr

/-- The module-level mutable state of `src/api.py`: the two dictionaries,
plus the state of the identifier source (see `genId`). -/
structure Store where
  users_db : Dict UserR
  tasks_db : Dict TaskR
  nextId : Nat
deriving DecidableEq, Repr

/-- The empty store (`reset_database`). -/
def emptyStore : Store := ⟨[], [], 0⟩

/-- Modelled from the spec: the source draws ids from `str(uuid.uuid4())`,
an identifier source specified (§4.1) to never collide in practice
(128-bit-random-class uniqueness). Randomness is not embeddable, so the
source is modelled as an injective function of a per-store fresh counter:
the n-th id drawn is a string of n+1 copies of `u`. -/
def genId (n : Nat) : String :=
  String.mk (List.replicate (n + 1) 'u')

/-- `POST /users` (`create_user`): assign a fresh id, store the record,
return it. Never fails. -/
def create_user (u : UserIn) (s : Store) : UserR × Store :=
  let user_id := genId s.nextId
  let user_data : UserR := ⟨user_id, u.name, u.email, u.age⟩
  (user_data, { s with users_db := dictSet s.users_db user_id user_data,
                       nextId := s.nextId + 1 })

/-- `GET /users` (`get_users`). -/
def get_users (s : Store) : List UserR :=
  dictValues s.users_db

/-- `GET /users/{user_id}` (`get_user`): 404 if the key is absent. -/
def get_user (user_id : String) (s : Store) : Except ApiError UserR :=
  match dictGet s.users_db user_id with
  | none => .error .notFound
  | some u => .ok u

/-- `PUT /users/{user_id}` (`update_user`): 404 if absent, else replace
the record with the request body plus the path id. -/
def update_user (user_id : String) (u : UserIn) (s : Store) :
    Except ApiError UserR × Store :=
  if !dictContains s.users_db user_id then (.error .notFound, s)
  else
    let user_data : UserR := ⟨user_id, u.name, u.email, u.age⟩
    (.ok user_data, { s with users_db := dictSet s.users_db user_id user_data })

/-- `DELETE /users/{user_id}` (`delete_user`): 404 if absent; else collect
the ids of the tasks whose `user_id` equals the path id, delete each, then
delete the user. -/
def delete_user (user_id : String) (s : Store) : Except ApiError Unit × Store :=
  if !dictContains s.users_db user_id then (.error .notFound, s)
  else
    let user_tasks :=
      (s.tasks_db.filter (fun p => p.2.user_id == some user_id)).map Prod.fst
    let tasks' := user_tasks.foldl dictDel s.tasks_db
    (.ok (), { s with users_db := dictDel s.users_db user_id,
                      tasks_db := tasks' })

/-- The reference check of `create_task`/`update_task`:
`task.user_id and task.user_id not in users_db`. Python truthiness makes
`None` and the empty string both falsy, so only a non-empty `user_id`
is checked against the user collection. -/
def refCheckFails (uid? : Option String) (users : Dict UserR) : Bool :=
  match uid? with
  | none => false
  | some uid => !uid.isEmpty && !dictContains users uid

/-- `POST /tasks` (`create_task`): 400 if the reference check fails, else
assign a fresh id and store the record. -/
def create_task (t : TaskIn) (s : Store) : Except ApiError TaskR × Store :=
  if refCheckFails t.user_id s.users_db then (.error .invalidReference, s)
  else
    let task_id := genId s.nextId
    let task_data : TaskR := ⟨task_id, t.title, t.description, t.completed, t.user_id⟩
    (.ok task_data, { s with tasks_db := dictSet s.tasks_db task_id task_data,
                             nextId := s.nextId + 1 })

/-- `GET /tasks` (`get_tasks`): start from all task values, filter by
`completed` when supplied, then by `user_id` when supplied. -/
def get_tasks (completed : Option Bool) (user_id : Option String) (s : Store) :
    List TaskR :=
  let tasks := dictValues s.tasks_db
  let tasks :=
    match completed with
    | none => tasks
    | some c => tasks.filter (fun t => t.completed == c)
  match user_id with
  | none => tasks
  | some u => tasks.filter (fun t => t.user_id == some u)

/-- `GET /tasks/{task_id}` (`get_task`): 404 if absent. -/
def get_task (task_id : String) (s : Store) : Except ApiError TaskR :=
  match dictGet s.tasks_db task_id with
  | none => .error .notFound
  | some t => .ok t

/-- `PUT /tasks/{task_id}` (`update_task`): 404 if the task is absent,
400 if the reference check fails, else replace the record with the
request body plus the path id. -/
def update_task (task_id : String) (t : TaskIn) (s : Store) :
    Except ApiError TaskR × Store :=
  if !dictContains s.tasks_db task_id then (.error .notFound, s)
  else if refCheckFails t.user_id s.users_db then (.error .invalidReference, s)
  else
    let task_data : TaskR := ⟨task_id, t.title, t.description, t.completed, t.user_id⟩
    (.ok task_data, { s with tasks_db := dictSet s.tasks_db task_id task_data })

/-- `PATCH /tasks/{task_id}/complete` (`complete_task`): 404 if absent,
else set the stored record's `completed` field to `True` in place and
return the updated record. -/
def complete_task (task_id : String) (s : Store) :
    Except ApiError TaskR × Store :=
  match dictGet s.tasks_db task_id with
  | none => (.error .notFound, s)
  | some t =>
      let t' := { t with completed := true }
      (.ok t', { s with tasks_db := dictSet s.tasks_db task_id t' })

/-- `DELETE /tasks/{task_id}` (`delete_task`): 404 if absent. -/
def delete_task (task_id : String) (s : Store) : Except ApiError Unit × Store :=
  if !dictContains s.tasks_db task_id then (.error .notFound, s)
  else (.ok (), { s with tasks_db := dictDel s.tasks_db task_id })

/-- The pure core of `TaskManager.get_user_task_summary` (`src/cli.py`):
counts over the already-fetched task list. `completion_rate` is
`len(completed)/len(tasks) if tasks else 0`, stated over ℚ. -/
structure Summary where
  total_tasks : Nat
  completed_tasks : Nat
  pending_tasks : Nat
  completion_rate : ℚ
deriving DecidableEq, Repr

/-- Summary computation of `get_user_task_summary` on the task list. -/
def get_user_task_summary (tasks : List TaskR) : Summary :=
  let completed_tasks := tasks.filter (fun t => t.completed)
  let pending_tasks := tasks.filter (fun t => !t.completed)
  { total_tasks := tasks.length
    completed_tasks := completed_tasks.length
    pending_tasks := pending_tasks.length
    completion_rate :=
      if tasks.isEmpty then 0
      else (completed_tasks.length : ℚ) / (tasks.length : ℚ) }

/-! ### Reachable store states and the store invariant -/

/-- One mutating API call (the `.2` of each operation is the store after
the call; reads do not change the state). -/
inductive Step : Store → Store → Prop where
  | createUser (u : UserIn) (s : Store) : Step s (create_user u s).2
  | updateUser (id : String) (u : UserIn) (s : Store) : Step s (update_user id u s).2
  | deleteUser (id : String) (s : Store) : Step s (delete_user id s).2
  | createTask (t : TaskIn) (s : Store) : Step s (create_task t s).2
  | updateTask (id : String) (t : TaskIn) (s : Store) : Step s (update_task id t s).2
  | completeTask (id : String) (s : Store) : Step s (complete_task id s).2
  | deleteTask (id : String) (s : Store) : Step s (delete_task id s).2

/-- Store states reachable from the empty store by API calls. -/
inductive Reachable : Store → Prop where
  | init : Reachable emptyStore
  | step {s s' : Store} : Reachable s → Step s s' → Reachable s'

/-- Every live key was produced by the id source before the current
counter value. -/
def KeysBounded (s : Store) : Prop :=
  (∀ p ∈ s.users_db, ∃ i, i < s.nextId ∧ p.1 = genId i) ∧
  (∀ p ∈ s.tasks_db, ∃ i, i < s.nextId ∧ p.1 = genId i)

/-- Every stored record's `id` field equals its dictionary key. -/
def KeysMatch (s : Store) : Prop :=
  (∀ p ∈ s.users_db, p.2.id = p.1) ∧ (∀ p ∈ s.tasks_db, p.2.id = p.1)

/-- Referential integrity as the code actually enforces it: every task
whose `user_id` is a non-empty string references a live user key. -/
def TruthyRefIntegrity (s : Store) : Prop :=
  ∀ t ∈ dictValues s.tasks_db, ∀ uid, t.user_id = some uid →
    uid.isEmpty = false → dictContains s.users_db uid = true

/-- Referential integrity as the spec states it: every task whose
`user_id` is non-null references a live user key. -/
def RefIntegrity (s : Store) : Prop :=
  ∀ t ∈ dictValues s.tasks_db, ∀ uid, t.user_id = some uid →
    dictContains s.users_db uid = true

/-- The inductive invariant of the store. -/
def StoreInv (s : Store) : Prop :=
  KeysBounded s ∧ KeysMatch s ∧ TruthyRefIntegrity s

/-! ### Sequences of create calls -/

/-- A create call: `POST /users` or `POST /tasks`. -/
inductive CreateOp where
  | user (u : UserIn)
  | task (t : TaskIn)

/-- Run a sequence of create calls, collecting the ids actually returned
(a failing `create_task` returns no id). -/
def runCreates : List CreateOp → Store → List String × Store
  | [], s => ([], s)
  | .user u :: rest, s =>
      let r := create_user u s
      let rs := runCreates rest r.2
      (r.1.id :: rs.1, rs.2)
  | .task t :: rest, s =>
      match create_task t s with
      | (.ok r, s') =>
          let rs := runCreates rest s'
          (r.id :: rs.1, rs.2)
      | (.error _, s') => runCreates rest s'

/-- Checks, along a run of create calls, that every id returned by a
successful call was absent from its collection just before that call. -/
def freshRun : List CreateOp → Store → Bool
  | [], _ => true
  | .user u :: rest, s =>
      (!dictContains s.users_db (create_user u s).1.id) &&
        freshRun rest (create_user u s).2
  | .task t :: rest, s =>
      match create_task t s with
      | (.ok r, s') => (!dictContains s.tasks_db r.id) && freshRun rest s'
      | (.error _, s') => freshRun rest s'

/-- The concrete task list of spec property P6: completion states
true, false, true, false. -/
def p6Tasks : List TaskR :=
  [⟨"t1", "a", none, true, none⟩, ⟨"t2", "b", none, false, none⟩,
   ⟨"t3", "c", none, true, none⟩, ⟨"t4", "d", none, false, none⟩]

/-- A concrete store with one user owning one task. -/
def wStore : Store :=
  ⟨[("a", ⟨"a", "n", "e", none⟩)],
   [("t", ⟨"t", "x", none, false, some "a"⟩)], 5⟩

/-- A concrete sequence of create calls. -/
def wOps : List CreateOp :=
  [.user ⟨"a", "e", none⟩, .task ⟨"t", none, false, none⟩,
   .user ⟨"b", "f", none⟩]


/-! ### Dictionary lemmas -/

theorem dictGet_dictSet_self {α : Type} (d : Dict α) (k : String) (v : α) :
    dictGet (dictSet d k v) k = some v := by
  induction d with
  | nil => simp [dictSet, dictGet]
  | cons p rest ih =>
      obtain ⟨k', v'⟩ := p
      by_cases h : k' = k
      · simp [dictSet, h, dictGet]
      · simp [dictSet, h, dictGet, ih]

theorem dictGet_dictSet_ne {α : Type} (d : Dict α) (k k' : String) (v : α)
    (h : k' ≠ k) : dictGet (dictSet d k v) k' = dictGet d k' := by
  have hkk : ¬ (k = k') := fun h' => h h'.symm
  induction d with
  | nil => simp [dictSet, dictGet, hkk]
  | cons p rest ih =>
      obtain ⟨k₀, v₀⟩ := p
      by_cases h₀ : k₀ = k
      · subst h₀
        simp [dictSet, dictGet, hkk]
      · simp [dictSet, h₀, dictGet, ih]

theorem dictSet_dictSet_same {α : Type} (d : Dict α) (k : String) (v w : α) :
    dictSet (dictSet d k v) k w = dictSet d k w := by
  induction d with
  | nil => simp [dictSet]
  | cons p rest ih =>
      obtain ⟨k₀, v₀⟩ := p
      by_cases h : k₀ = k
      · simp [dictSet, h]
      · simp [dictSet, h, ih]

theorem mem_dictSet {α : Type} (d : Dict α) (k : String) (v : α) (p : String × α)
    (h : p ∈ dictSet d k v) : p = (k, v) ∨ p ∈ d := by
  induction d with
  | nil => simpa [dictSet] using h
  | cons q rest ih =>
      obtain ⟨k₀, v₀⟩ := q
      by_cases h₀ : k₀ = k
      · simp only [dictSet, if_pos h₀, List.mem_cons] at h
        rcases h with h | h
        · exact Or.inl h
        · exact Or.inr (List.mem_cons_of_mem _ h)
      · simp only [dictSet, if_neg h₀, List.mem_cons] at h
        rcases h with h | h
        · exact Or.inr (by rw [h]; exact List.mem_cons_self _ _)
        · rcases ih h with h | h
          · exact Or.inl h
          · exact Or.inr (List.mem_cons_of_mem _ h)

theorem dictGet_eq_some_mem {α : Type} (d : Dict α) (k : String) (v : α)
    (h : dictGet d k = some v) : (k, v) ∈ d := by
  induction d with
  | nil => simp [dictGet] at h
  | cons p rest ih =>
      obtain ⟨k₀, v₀⟩ := p
      by_cases h₀ : k₀ = k
      · subst h₀
        simp [dictGet] at h
        simp [h]
      · simp [dictGet, h₀] at h
        exact List.mem_cons_of_mem _ (ih h)

theorem dictContains_iff_exists {α : Type} (d : Dict α) (k : String) :
    dictContains d k = true ↔ ∃ v, (k, v) ∈ d := by
  constructor
  · intro h
    rw [dictContains, Option.isSome_iff_exists] at h
    obtain ⟨v, hv⟩ := h
    exact ⟨v, dictGet_eq_some_mem d k v hv⟩
  · intro ⟨v, hv⟩
    rw [dictContains, Option.isSome_iff_exists]
    induction d with
    | nil => simp at hv
    | cons p rest ih =>
        obtain ⟨k₀, v₀⟩ := p
        by_cases h₀ : k₀ = k
        · exact ⟨v₀, by simp [dictGet, h₀]⟩
        · rcases List.mem_cons.mp hv with h | h
          · exact absurd (congrArg Prod.fst h).symm h₀
          · obtain ⟨w, hw⟩ := ih h
            exact ⟨w, by simpa [dictGet, h₀] using hw⟩

theorem dictContains_dictSet_mono {α : Type} (d : Dict α) (k k' : String) (v : α)
    (h : dictContains d k' = true) : dictContains (dictSet d k v) k' = true := by
  by_cases hk : k' = k
  · subst hk
    simp [dictContains, dictGet_dictSet_self]
  · rwa [dictContains, dictGet_dictSet_ne d k k' v hk]

theorem mem_dictDel {α : Type} (d : Dict α) (k : String) (p : String × α) :
    p ∈ dictDel d k ↔ p ∈ d ∧ p.1 ≠ k := by
  simp [dictDel, List.mem_filter]

theorem dictGet_dictDel_self {α : Type} (d : Dict α) (k : String) :
    dictGet (dictDel d k) k = none := by
  rcases h : dictGet (dictDel d k) k with _ | v
  · rfl
  · have := (mem_dictDel d k _).mp (dictGet_eq_some_mem _ _ _ h)
    exact absurd rfl this.2

theorem dictGet_dictDel_ne {α : Type} (d : Dict α) (k k' : String)
    (h : k' ≠ k) : dictGet (dictDel d k) k' = dictGet d k' := by
  induction d with
  | nil => rfl
  | cons p rest ih =>
      obtain ⟨k₀, v₀⟩ := p
      by_cases h₀ : k₀ = k
      · subst h₀
        have hne : ¬ (k₀ = k') := fun h' => h h'.symm
        simp only [dictDel, List.filter_cons] at ih ⊢
        simp only [beq_self_eq_true, Bool.not_true, if_false, dictGet, if_neg hne]
        exact ih
      · have hne : (!(k₀ == k)) = true := by simp [h₀]
        simp only [dictDel, List.filter_cons, hne, if_true] at ih ⊢
        by_cases h₁ : k₀ = k'
        · simp [dictGet, h₁]
        · simp only [dictGet, if_neg h₁]
          exact ih

theorem mem_foldl_dictDel {α : Type} (ks : List String) (d : Dict α)
    (p : String × α) (h : p ∈ ks.foldl dictDel d) : p ∈ d ∧ p.1 ∉ ks := by
  induction ks generalizing d with
  | nil => simpa using h
  | cons a rest ih =>
      simp only [List.foldl] at h
      obtain ⟨hmem, hnot⟩ := ih (dictDel d a) h
      obtain ⟨hd, hne⟩ := (mem_dictDel d a p).mp hmem
      exact ⟨hd, by simp [hne, hnot]⟩

theorem genId_inj : Function.Injective genId := by
  intro a b h
  have hlen : (genId a).length = (genId b).length := by rw [h]
  simpa [genId, String.length] using hlen

theorem mem_dictValues {α : Type} (d : Dict α) (v : α) :
    v ∈ dictValues d ↔ ∃ k, (k, v) ∈ d := by
  constructor
  · intro h
    obtain ⟨⟨k, w⟩, hp, he⟩ := List.mem_map.mp h
    subst he
    exact ⟨k, hp⟩
  · intro ⟨k, hk⟩
    exact List.mem_map.mpr ⟨(k, v), hk, rfl⟩

theorem dictContains_dictDel_ne {α : Type} (d : Dict α) (k k' : String)
    (h : k' ≠ k) : dictContains (dictDel d k) k' = dictContains d k' := by
  simp [dictContains, dictGet_dictDel_ne d k k' h]

theorem dictContains_genId_absent {α : Type} (d : Dict α) (n m : Nat)
    (hb : ∀ p ∈ d, ∃ i, i < n ∧ p.1 = genId i) (hm : n ≤ m) :
    dictContains d (genId m) = false := by
  cases hc : dictContains d (genId m) with
  | false => rfl
  | true =>
      obtain ⟨v, hv⟩ := (dictContains_iff_exists d _).mp hc
      obtain ⟨i, hi, hgi⟩ := hb _ hv
      have : m = i := genId_inj hgi
      omega


theorem storeInv_empty : StoreInv emptyStore := by
  refine ⟨⟨?_, ?_⟩, ⟨?_, ?_⟩, ?_⟩ <;> intro p hp <;>
    simp [emptyStore, dictValues] at hp

/-! ### Characterization of each operation, branch by branch -/

theorem create_user_eq (u : UserIn) (s : Store) :
    create_user u s =
      (⟨genId s.nextId, u.name, u.email, u.age⟩,
       ⟨dictSet s.users_db (genId s.nextId) ⟨genId s.nextId, u.name, u.email, u.age⟩,
        s.tasks_db, s.nextId + 1⟩) := rfl

theorem update_user_absent (id : String) (u : UserIn) (s : Store)
    (h : dictContains s.users_db id = false) :
    update_user id u s = (.error .notFound, s) := by
  simp [update_user, h]

theorem update_user_present (id : String) (u : UserIn) (s : Store)
    (h : dictContains s.users_db id = true) :
    update_user id u s =
      (.ok ⟨id, u.name, u.email, u.age⟩,
       ⟨dictSet s.users_db id ⟨id, u.name, u.email, u.age⟩,
        s.tasks_db, s.nextId⟩) := by
  simp [update_user, h]

theorem delete_user_absent (id : String) (s : Store)
    (h : dictContains s.users_db id = false) :
    delete_user id s = (.error .notFound, s) := by
  simp [delete_user, h]

theorem delete_user_present (id : String) (s : Store)
    (h : dictContains s.users_db id = true) :
    delete_user id s =
      (.ok (),
       ⟨dictDel s.users_db id,
        ((s.tasks_db.filter (fun p => p.2.user_id == some id)).map
          Prod.fst).foldl dictDel s.tasks_db,
        s.nextId⟩) := by
  simp [delete_user, h]

theorem create_task_fail (t : TaskIn) (s : Store)
    (h : refCheckFails t.user_id s.users_db = true) :
    create_task t s = (.error .invalidReference, s) := by
  simp [create_task, h]

theorem create_task_ok (t : TaskIn) (s : Store)
    (h : refCheckFails t.user_id s.users_db = false) :
    create_task t s =
      (.ok ⟨genId s.nextId, t.title, t.description, t.completed, t.user_id⟩,
       ⟨s.users_db,
        dictSet s.tasks_db (genId s.nextId)
          ⟨genId s.nextId, t.title, t.description, t.completed, t.user_id⟩,
        s.nextId + 1⟩) := by
  simp [create_task, h]

theorem update_task_absent (id : String) (t : TaskIn) (s : Store)
    (h : dictContains s.tasks_db id = false) :
    update_task id t s = (.error .notFound, s) := by
  simp [update_task, h]

theorem update_task_badref (id : String) (t : TaskIn) (s : Store)
    (h : dictContains s.tasks_db id = true)
    (h' : refCheckFails t.user_id s.users_db = true) :
    update_task id t s = (.error .invalidReference, s) := by
  simp [update_task, h, h']

theorem update_task_ok (id : String) (t : TaskIn) (s : Store)
    (h : dictContains s.tasks_db id = true)
    (h' : refCheckFails t.user_id s.users_db = false) :
    update_task id t s =
      (.ok ⟨id, t.title, t.description, t.completed, t.user_id⟩,
       ⟨s.users_db,
        dictSet s.tasks_db id ⟨id, t.title, t.description, t.completed, t.user_id⟩,
        s.nextId⟩) := by
  simp [update_task, h, h']

theorem complete_task_absent (id : String) (s : Store)
    (h : dictGet s.tasks_db id = none) :
    complete_task id s = (.error .notFound, s) := by
  simp [complete_task, h]

theorem complete_task_present (id : String) (s : Store) (t : TaskR)
    (h : dictGet s.tasks_db id = some t) :
    complete_task id s =
      (.ok { t with completed := true },
       ⟨s.users_db, dictSet s.tasks_db id { t with completed := true },
        s.nextId⟩) := by
  simp [complete_task, h]

theorem delete_task_absent (id : String) (s : Store)
    (h : dictContains s.tasks_db id = false) :
    delete_task id s = (.error .notFound, s) := by
  simp [delete_task, h]

theorem delete_task_present (id : String) (s : Store)
    (h : dictContains s.tasks_db id = true) :
    delete_task id s =
      (.ok (), ⟨s.users_db, dictDel s.tasks_db id, s.nextId⟩) := by
  simp [delete_task, h]

/-! ### Invariant preservation -/

theorem storeInv_createUser (u : UserIn) (s : Store) (h : StoreInv s) :
    StoreInv (create_user u s).2 := by
  obtain ⟨⟨hbu, hbt⟩, ⟨hmu, hmt⟩, href⟩ := h
  rw [create_user_eq]
  dsimp only [KeysBounded, KeysMatch, TruthyRefIntegrity, StoreInv]
  refine ⟨⟨?_, ?_⟩, ⟨?_, ?_⟩, ?_⟩
  · intro p hp
    rcases mem_dictSet _ _ _ _ hp with hp | hp
    · exact ⟨s.nextId, by omega, by rw [hp]⟩
    · obtain ⟨i, hi, he⟩ := hbu p hp
      exact ⟨i, by omega, he⟩
  · intro p hp
    obtain ⟨i, hi, he⟩ := hbt p hp
    exact ⟨i, by omega, he⟩
  · intro p hp
    rcases mem_dictSet _ _ _ _ hp with hp | hp
    · rw [hp]
    · exact hmu p hp
  · exact hmt
  · intro t ht uid huid hne
    exact dictContains_dictSet_mono _ _ _ _ (href t ht uid huid hne)

theorem storeInv_updateUser (id : String) (u : UserIn) (s : Store)
    (h : StoreInv s) : StoreInv (update_user id u s).2 := by
  cases hc : dictContains s.users_db id with
  | false => rw [update_user_absent id u s hc]; exact h
  | true =>
      obtain ⟨⟨hbu, hbt⟩, ⟨hmu, hmt⟩, href⟩ := h
      rw [update_user_present id u s hc]
      dsimp only [KeysBounded, KeysMatch, TruthyRefIntegrity, StoreInv]
      refine ⟨⟨?_, hbt⟩, ⟨?_, hmt⟩, ?_⟩
      · intro p hp
        rcases mem_dictSet _ _ _ _ hp with hp | hp
        · obtain ⟨v, hv⟩ := (dictContains_iff_exists _ _).mp hc
          obtain ⟨i, hi, he⟩ := hbu (id, v) hv
          exact ⟨i, hi, by rw [hp]; exact he⟩
        · exact hbu p hp
      · intro p hp
        rcases mem_dictSet _ _ _ _ hp with hp | hp
        · rw [hp]
        · exact hmu p hp
      · intro t ht uid huid hne
        exact dictContains_dictSet_mono _ _ _ _ (href t ht uid huid hne)

theorem storeInv_deleteUser (id : String) (s : Store) (h : StoreInv s) :
    StoreInv (delete_user id s).2 := by
  cases hc : dictContains s.users_db id with
  | false => rw [delete_user_absent id s hc]; exact h
  | true =>
      obtain ⟨⟨hbu, hbt⟩, ⟨hmu, hmt⟩, href⟩ := h
      rw [delete_user_present id s hc]
      dsimp only [StoreInv, KeysBounded, KeysMatch, TruthyRefIntegrity]
      refine ⟨⟨?_, ?_⟩, ⟨?_, ?_⟩, ?_⟩
      · intro p hp
        exact hbu p ((mem_dictDel _ _ _).mp hp).1
      · intro p hp
        exact hbt p (mem_foldl_dictDel _ _ _ hp).1
      · intro p hp
        exact hmu p ((mem_dictDel _ _ _).mp hp).1
      · intro p hp
        exact hmt p (mem_foldl_dictDel _ _ _ hp).1
      · intro t ht uid huid hne
        obtain ⟨k, hk⟩ := (mem_dictValues _ _).mp ht
        obtain ⟨hmem, hnotin⟩ := mem_foldl_dictDel _ _ _ hk
        have hcont := href t ((mem_dictValues _ _).mpr ⟨k, hmem⟩) uid huid hne
        have huidne : uid ≠ id := by
          intro he
          subst he
          exact hnotin (List.mem_map.mpr
            ⟨(k, t), List.mem_filter.mpr ⟨hmem, by simp [huid]⟩, rfl⟩)
        rw [dictContains_dictDel_ne _ _ _ huidne]
        exact hcont

theorem storeInv_createTask (t : TaskIn) (s : Store) (h : StoreInv s) :
    StoreInv (create_task t s).2 := by
  cases hc : refCheckFails t.user_id s.users_db with
  | true => rw [create_task_fail t s hc]; exact h
  | false =>
      obtain ⟨⟨hbu, hbt⟩, ⟨hmu, hmt⟩, href⟩ := h
      rw [create_task_ok t s hc]
      dsimp only [StoreInv, KeysBounded, KeysMatch, TruthyRefIntegrity]
      refine ⟨⟨?_, ?_⟩, ⟨hmu, ?_⟩, ?_⟩
      · intro p hp
        obtain ⟨i, hi, he⟩ := hbu p hp
        exact ⟨i, by omega, he⟩
      · intro p hp
        rcases mem_dictSet _ _ _ _ hp with hp | hp
        · exact ⟨s.nextId, by omega, by rw [hp]⟩
        · obtain ⟨i, hi, he⟩ := hbt p hp
          exact ⟨i, by omega, he⟩
      · intro p hp
        rcases mem_dictSet _ _ _ _ hp with hp | hp
        · rw [hp]
        · exact hmt p hp
      · intro tv htv uid huid hne
        obtain ⟨k, hk⟩ := (mem_dictValues _ _).mp htv
        rcases mem_dictSet _ _ _ _ hk with hk | hk
        · have htv2 : tv = ⟨genId s.nextId, t.title, t.description,
              t.completed, t.user_id⟩ := congrArg Prod.snd hk
          rw [htv2] at huid
          dsimp at huid
          rw [huid] at hc
          simp [refCheckFails, hne] at hc
          exact hc
        · exact href tv ((mem_dictValues _ _).mpr ⟨k, hk⟩) uid huid hne

theorem storeInv_updateTask (id : String) (t : TaskIn) (s : Store)
    (h : StoreInv s) : StoreInv (update_task id t s).2 := by
  cases hc : dictContains s.tasks_db id with
  | false => rw [update_task_absent id t s hc]; exact h
  | true =>
      cases hr : refCheckFails t.user_id s.users_db with
      | true => rw [update_task_badref id t s hc hr]; exact h
      | false =>
          obtain ⟨⟨hbu, hbt⟩, ⟨hmu, hmt⟩, href⟩ := h
          rw [update_task_ok id t s hc hr]
          dsimp only [StoreInv, KeysBounded, KeysMatch, TruthyRefIntegrity]
          refine ⟨⟨hbu, ?_⟩, ⟨hmu, ?_⟩, ?_⟩
          · intro p hp
            rcases mem_dictSet _ _ _ _ hp with hp | hp
            · obtain ⟨v, hv⟩ := (dictContains_iff_exists _ _).mp hc
              obtain ⟨i, hi, he⟩ := hbt (id, v) hv
              exact ⟨i, hi, by rw [hp]; exact he⟩
            · exact hbt p hp
          · intro p hp
            rcases mem_dictSet _ _ _ _ hp with hp | hp
            · rw [hp]
            · exact hmt p hp
          · intro tv htv uid huid hne
            obtain ⟨k, hk⟩ := (mem_dictValues _ _).mp htv
            rcases mem_dictSet _ _ _ _ hk with hk | hk
            · have htv2 : tv = ⟨id, t.title, t.description,
                  t.completed, t.user_id⟩ := congrArg Prod.snd hk
              rw [htv2] at huid
              dsimp at huid
              rw [huid] at hr
              simp [refCheckFails, hne] at hr
              exact hr
            · exact href tv ((mem_dictValues _ _).mpr ⟨k, hk⟩) uid huid hne

theorem storeInv_completeTask (id : String) (s : Store) (h : StoreInv s) :
    StoreInv (complete_task id s).2 := by
  cases hg : dictGet s.tasks_db id with
  | none => rw [complete_task_absent id s hg]; exact h
  | some t =>
      obtain ⟨⟨hbu, hbt⟩, ⟨hmu, hmt⟩, href⟩ := h
      rw [complete_task_present id s t hg]
      dsimp only [StoreInv, KeysBounded, KeysMatch, TruthyRefIntegrity]
      have hmem := dictGet_eq_some_mem _ _ _ hg
      refine ⟨⟨hbu, ?_⟩, ⟨hmu, ?_⟩, ?_⟩
      · intro p hp
        rcases mem_dictSet _ _ _ _ hp with hp | hp
        · obtain ⟨i, hi, he⟩ := hbt (id, t) hmem
          exact ⟨i, hi, by rw [hp]; exact he⟩
        · exact hbt p hp
      · intro p hp
        rcases mem_dictSet _ _ _ _ hp with hp | hp
        · rw [hp]
          exact hmt (id, t) hmem
        · exact hmt p hp
      · intro tv htv uid huid hne
        obtain ⟨k, hk⟩ := (mem_dictValues _ _).mp htv
        rcases mem_dictSet _ _ _ _ hk with hk | hk
        · have htv2 : tv = { t with completed := true } := congrArg Prod.snd hk
          rw [htv2] at huid
          exact href t ((mem_dictValues _ _).mpr ⟨id, hmem⟩) uid huid hne
        · exact href tv ((mem_dictValues _ _).mpr ⟨k, hk⟩) uid huid hne

theorem storeInv_deleteTask (id : String) (s : Store) (h : StoreInv s) :
    StoreInv (delete_task id s).2 := by
  cases hc : dictContains s.tasks_db id with
  | false => rw [delete_task_absent id s hc]; exact h
  | true =>
      obtain ⟨⟨hbu, hbt⟩, ⟨hmu, hmt⟩, href⟩ := h
      rw [delete_task_present id s hc]
      dsimp only [StoreInv, KeysBounded, KeysMatch, TruthyRefIntegrity]
      refine ⟨⟨hbu, ?_⟩, ⟨hmu, ?_⟩, ?_⟩
      · intro p hp
        exact hbt p ((mem_dictDel _ _ _).mp hp).1
      · intro p hp
        exact hmt p ((mem_dictDel _ _ _).mp hp).1
      · intro tv htv uid huid hne
        obtain ⟨k, hk⟩ := (mem_dictValues _ _).mp htv
        exact href tv
          ((mem_dictValues _ _).mpr ⟨k, ((mem_dictDel _ _ _).mp hk).1⟩) uid huid hne

theorem storeInv_step {s s' : Store} (h : StoreInv s) (hs : Step s s') :
    StoreInv s' := by
  cases hs with
  | createUser u => exact storeInv_createUser u s h
  | updateUser id u => exact storeInv_updateUser id u s h
  | deleteUser id => exact storeInv_deleteUser id s h
  | createTask t => exact storeInv_createTask t s h
  | updateTask id t => exact storeInv_updateTask id t s h
  | completeTask id => exact storeInv_completeTask id s h
  | deleteTask id => exact storeInv_deleteTask id s h

theorem storeInv_reachable {s : Store} (h : Reachable s) : StoreInv s := by
  induction h with
  | init => exact storeInv_empty
  | step _ hs ih => exact storeInv_step ih hs

/-! ### Claim theorems -/

/-- Claim C3: for every store state, boolean `c` and string `u`,
`get_tasks (some c) (some u)` contains exactly the tasks appearing in both
`get_tasks (some c) none` and `get_tasks none (some u)`; the filters are
conjunctive, with exact boolean equality on `completed`, exact string
equality on `user_id`, and a null `user_id` never matching. -/
theorem filter_composition_conjunction (s : Store) (c : Bool) (u : String)
    (t : TaskR) :
    (t ∈ get_tasks (some c) (some u) s ↔
      t ∈ get_tasks (some c) none s ∧ t ∈ get_tasks none (some u) s) ∧
    (t ∈ get_tasks (some c) (some u) s ↔
      t ∈ dictValues s.tasks_db ∧ t.completed = c ∧ t.user_id = some u) := by
  constructor <;> simp [get_tasks, List.mem_filter] <;> tauto

/-- Claim C8: for every store state and any combination of filters, the
filtered task list is a subsequence of the unfiltered one: filtering never
reorders the surviving elements. -/
theorem filter_order_stability (c : Option Bool) (u : Option String)
    (s : Store) : (get_tasks c u s).Sublist (get_tasks none none s) := by
  cases c <;> cases u <;> simp only [get_tasks] <;>
    first
      | exact List.Sublist.refl _
      | exact List.filter_sublist _
      | exact (List.filter_sublist _).trans (List.filter_sublist _)

/-- Claim C10: `create_task` fails with `InvalidReference` exactly when the
supplied `user_id` is a non-empty (truthy) string absent from the user
collection; with `user_id` equal to the empty string the call always
succeeds and stores a task whose `user_id` is the empty string. -/
theorem create_task_refcheck_characterization (t : TaskIn) (s : Store) :
    ((create_task t s).1 = .error .invalidReference ↔
      ∃ uid, t.user_id = some uid ∧ uid.isEmpty = false ∧
        dictContains s.users_db uid = false) ∧
    (t.user_id = some "" →
      create_task t s =
        (.ok ⟨genId s.nextId, t.title, t.description, t.completed, some ""⟩,
         ⟨s.users_db,
          dictSet s.tasks_db (genId s.nextId)
            ⟨genId s.nextId, t.title, t.description, t.completed, some ""⟩,
          s.nextId + 1⟩) ∧
      dictGet (create_task t s).2.tasks_db (genId s.nextId) =
        some ⟨genId s.nextId, t.title, t.description, t.completed, some ""⟩) := by
  constructor
  · cases hr : refCheckFails t.user_id s.users_db with
    | true =>
        rw [create_task_fail t s hr]
        simp only [true_iff]
        cases huid : t.user_id with
        | none => rw [huid] at hr; simp [refCheckFails] at hr
        | some uid =>
            rw [huid] at hr
            simp only [refCheckFails, Bool.and_eq_true, Bool.not_eq_true'] at hr
            exact ⟨uid, rfl, hr.1, hr.2⟩
    | false =>
        rw [create_task_ok t s hr]
        simp only [reduceCtorEq, false_iff]
        rintro ⟨uid, huid, hne, hnc⟩
        rw [huid] at hr
        simp [refCheckFails, hne, hnc] at hr
  · intro huid
    have hr : refCheckFails t.user_id s.users_db = false := by
      rw [huid]; rfl
    have e := create_task_ok t s hr
    rw [huid] at e
    refine ⟨e, ?_⟩
    rw [e]
    exact dictGet_dictSet_self _ _ _

/-- Claim C10 witness: on the empty store, a task with empty-string
`user_id` is created successfully and stored. -/
theorem create_task_refcheck_characterization_witness :
    create_task ⟨"x", none, false, some ""⟩ emptyStore =
      (.ok ⟨genId 0, "x", none, false, some ""⟩,
       ⟨[], dictSet [] (genId 0) ⟨genId 0, "x", none, false, some ""⟩, 1⟩) ∧
    dictGet (create_task ⟨"x", none, false, some ""⟩ emptyStore).2.tasks_db
        (genId 0) = some ⟨genId 0, "x", none, false, some ""⟩ :=
  (create_task_refcheck_characterization ⟨"x", none, false, some ""⟩
    emptyStore).2 rfl

theorem length_filter_not_completed (l : List TaskR) :
    (l.filter fun t => !t.completed).length =
      l.length - (l.filter fun t => t.completed).length := by
  induction l with
  | nil => rfl
  | cons a l ih =>
      have hle := List.length_filter_le (fun t : TaskR => t.completed) l
      cases hc : a.completed
      · simp [hc, ih]
        omega
      · simp [hc, ih]

/-- Claim C6: the user-task summary reports `total` as the number of
tasks, `completed` as the number of tasks with `completed = true`,
`pending` as `total - completed`, and `completion_rate` as
`completed / total` for nonempty task lists and exactly `0` for empty
ones. -/
theorem summary_correctness (tasks : List TaskR) :
    (get_user_task_summary tasks).total_tasks = tasks.length ∧
    (get_user_task_summary tasks).completed_tasks =
      (tasks.filter fun t => t.completed).length ∧
    (get_user_task_summary tasks).pending_tasks =
      (get_user_task_summary tasks).total_tasks -
        (get_user_task_summary tasks).completed_tasks ∧
    (0 < tasks.length →
      (get_user_task_summary tasks).completion_rate =
        ((get_user_task_summary tasks).completed_tasks : ℚ) /
          ((get_user_task_summary tasks).total_tasks : ℚ)) ∧
    (tasks.length = 0 → (get_user_task_summary tasks).completion_rate = 0) := by
  refine ⟨rfl, rfl, ?_, ?_, ?_⟩
  · exact length_filter_not_completed tasks
  · intro h
    rcases tasks with _ | ⟨a, l⟩
    · simp at h
    · simp [get_user_task_summary]
  · intro h
    have he : tasks = [] := List.length_eq_zero.mp h
    subst he
    rfl

/-- Claim C6 witness: on the concrete task list of spec property P6
(completion states true, false, true, false) the summary is
`total = 4`, `completed = 2`, `pending = 2`, `completion_rate = 1/2`. -/
theorem summary_correctness_witness :
    (get_user_task_summary p6Tasks).total_tasks = 4 ∧
    (get_user_task_summary p6Tasks).completed_tasks = 2 ∧
    (get_user_task_summary p6Tasks).pending_tasks = 2 ∧
    (get_user_task_summary p6Tasks).completion_rate = (1 : ℚ) / 2 := by
  obtain ⟨h1, h2, h3, h4, _⟩ := summary_correctness p6Tasks
  refine ⟨by rw [h1]; rfl, by rw [h2]; rfl, by rw [h3]; rfl, ?_⟩
  have h := h4 (by decide)
  rw [h, show (get_user_task_summary p6Tasks).completed_tasks = 2 from rfl,
     show (get_user_task_summary p6Tasks).total_tasks = 4 from rfl]
  norm_num

/-- Claim C5: for a task id present in the store, `complete_task` sets that
task's `completed` field to true, leaves its other fields and every other
record unchanged, and calling it twice yields the same store and the same
returned task as calling it once. -/
theorem complete_task_idempotent (id : String) (s : Store) (t : TaskR)
    (h : dictGet s.tasks_db id = some t) :
    complete_task id s =
      (.ok { t with completed := true },
       ⟨s.users_db, dictSet s.tasks_db id { t with completed := true },
        s.nextId⟩) ∧
    dictGet (complete_task id s).2.tasks_db id =
      some { t with completed := true } ∧
    (∀ k, k ≠ id →
      dictGet (complete_task id s).2.tasks_db k = dictGet s.tasks_db k) ∧
    (complete_task id s).2.users_db = s.users_db ∧
    complete_task id (complete_task id s).2 =
      (.ok { t with completed := true }, (complete_task id s).2) := by
  have e1 := complete_task_present id s t h
  have h2 : dictGet (complete_task id s).2.tasks_db id =
      some { t with completed := true } := by
    rw [e1]
    exact dictGet_dictSet_self _ _ _
  refine ⟨e1, h2, ?_, ?_, ?_⟩
  · intro k hk
    rw [e1]
    exact dictGet_dictSet_ne _ _ _ _ hk
  · rw [e1]
  · have e2 := complete_task_present id (complete_task id s).2
      { t with completed := true } h2
    rw [e2, e1]
    rw [show ({ t with completed := true } : TaskR) =
      { { t with completed := true } with completed := true } from rfl]
    rw [dictSet_dictSet_same]

/-- Claim C5 witness: completing the single task of a concrete store twice
equals completing it once. -/
theorem complete_task_idempotent_witness :
    complete_task "t" wStore =
      (.ok ⟨"t", "x", none, true, some "a"⟩,
       ⟨wStore.users_db,
        dictSet wStore.tasks_db "t" ⟨"t", "x", none, true, some "a"⟩,
        wStore.nextId⟩) ∧
    complete_task "t" (complete_task "t" wStore).2 =
      (.ok ⟨"t", "x", none, true, some "a"⟩, (complete_task "t" wStore).2) := by
  obtain ⟨e1, _, _, _, e5⟩ :=
    complete_task_idempotent "t" wStore ⟨"t", "x", none, false, some "a"⟩
      (by decide)
  exact ⟨e1, e5⟩

/-- Claim C7: in every reachable store, `update_user` on a present id
replaces the stored name, email and age with the supplied values while the
stored id stays equal to the key it was created under, leaving every other
record and the task collection unchanged; on an absent id it fails with
`NotFound` and leaves the store unchanged. -/
theorem update_user_semantics (id : String) (u : UserIn) (s : Store)
    (h : Reachable s) :
    (∀ r, dictGet s.users_db id = some r →
      update_user id u s =
        (.ok ⟨id, u.name, u.email, u.age⟩,
         ⟨dictSet s.users_db id ⟨id, u.name, u.email, u.age⟩,
          s.tasks_db, s.nextId⟩) ∧
      dictGet (update_user id u s).2.users_db id =
        some ⟨id, u.name, u.email, u.age⟩ ∧
      (∀ k, k ≠ id →
        dictGet (update_user id u s).2.users_db k = dictGet s.users_db k) ∧
      (update_user id u s).2.tasks_db = s.tasks_db ∧
      r.id = id) ∧
    (dictGet s.users_db id = none →
      update_user id u s = (.error .notFound, s)) := by
  constructor
  · intro r hr
    have hc : dictContains s.users_db id = true := by
      simp [dictContains, hr]
    have e := update_user_present id u s hc
    refine ⟨e, ?_, ?_, ?_, ?_⟩
    · rw [e]
      exact dictGet_dictSet_self _ _ _
    · intro k hk
      rw [e]
      exact dictGet_dictSet_ne _ _ _ _ hk
    · rw [e]
    · exact (storeInv_reachable h).2.1.1 (id, r) (dictGet_eq_some_mem _ _ _ hr)
  · intro hn
    exact update_user_absent id u s (by simp [dictContains, hn])

/-- Claim C7 witness: updating the user created first in a fresh store
replaces its fields and keeps its id; updating a missing id fails with
`NotFound`. -/
theorem update_user_semantics_witness :
    update_user (genId 0) ⟨"m", "f", none⟩
        (create_user ⟨"n", "e", none⟩ emptyStore).2 =
      (.ok ⟨genId 0, "m", "f", none⟩,
       ⟨dictSet (create_user ⟨"n", "e", none⟩ emptyStore).2.users_db (genId 0)
          ⟨genId 0, "m", "f", none⟩, [], 1⟩) ∧
    update_user "zz" ⟨"m", "f", none⟩
        (create_user ⟨"n", "e", none⟩ emptyStore).2 =
      (.error .notFound, (create_user ⟨"n", "e", none⟩ emptyStore).2) := by
  have hreach : Reachable (create_user ⟨"n", "e", none⟩ emptyStore).2 :=
    Reachable.step Reachable.init (Step.createUser ⟨"n", "e", none⟩ emptyStore)
  constructor
  · exact ((update_user_semantics (genId 0) ⟨"m", "f", none⟩ _ hreach).1
      ⟨genId 0, "n", "e", none⟩ (by decide)).1
  · exact (update_user_semantics "zz" ⟨"m", "f", none⟩ _ hreach).2 (by decide)

/-- Claim C2: for a user id present in the store, `delete_user` succeeds
and afterwards `list_tasks(user_id=u)` is empty and `get_user(u)` fails
with `NotFound`; for an absent id, `delete_user` fails with `NotFound`
and leaves the store unchanged. -/
theorem cascade_delete_postcondition (u : String) (s : Store) :
    (dictContains s.users_db u = true →
      (delete_user u s).1 = .ok () ∧
      get_tasks none (some u) (delete_user u s).2 = [] ∧
      get_user u (delete_user u s).2 = .error .notFound) ∧
    (dictContains s.users_db u = false →
      delete_user u s = (.error .notFound, s)) := by
  constructor
  · intro hc
    have e := delete_user_present u s hc
    refine ⟨by rw [e], ?_, ?_⟩
    · rw [e]
      simp only [get_tasks]
      rw [List.filter_eq_nil_iff]
      intro t ht
      obtain ⟨k, hk⟩ := (mem_dictValues _ _).mp ht
      obtain ⟨hmem, hnot⟩ := mem_foldl_dictDel _ _ _ hk
      intro hbeq
      exact hnot (List.mem_map.mpr
        ⟨(k, t), List.mem_filter.mpr ⟨hmem, hbeq⟩, rfl⟩)
    · rw [e]
      simp [get_user, dictGet_dictDel_self]
  · intro hc
    exact delete_user_absent u s hc

/-- Claim C2 witness: deleting the single user of a concrete store removes
the user and its task; deleting a missing id fails with `NotFound`. -/
theorem cascade_delete_postcondition_witness :
    (delete_user "a" wStore).1 = .ok () ∧
    get_tasks none (some "a") (delete_user "a" wStore).2 = [] ∧
    get_user "a" (delete_user "a" wStore).2 = .error .notFound ∧
    delete_user "b" wStore = (.error .notFound, wStore) := by
  obtain ⟨h1, h2, h3⟩ :=
    (cascade_delete_postcondition "a" wStore).1 (by decide)
  exact ⟨h1, h2, h3, (cascade_delete_postcondition "b" wStore).2 (by decide)⟩

/-- Claim C4 counterexample: on the empty store, no user resolves to the
id `""` (`get_user` fails), yet `create_task` with `user_id = some ""`
does not fail with `InvalidReference` — it creates the task, because the
Python truthiness check skips the empty string. -/
theorem invalidref_atomicity_counterexample :
    get_user "" emptyStore = .error .notFound ∧
    (create_task ⟨"x", none, false, some ""⟩ emptyStore).1 =
      .ok ⟨genId 0, "x", none, false, some ""⟩ :=
  ⟨rfl, rfl⟩

/-- Claim C4 amended: if `create_task` is called with a non-null,
non-empty `user_id` absent from the user collection, it fails with
`InvalidReference` and the store is unchanged; likewise `update_task` on
any present task id with such a `user_id` fails with `InvalidReference`
and the store is unchanged. -/
theorem invalidref_atomicity_amended (s : Store) (uid : String) (t : TaskIn)
    (huid : t.user_id = some uid) (hne : uid.isEmpty = false)
    (hno : dictContains s.users_db uid = false) :
    create_task t s = (.error .invalidReference, s) ∧
    (∀ id, dictContains s.tasks_db id = true →
      update_task id t s = (.error .invalidReference, s)) := by
  have hr : refCheckFails t.user_id s.users_db = true := by
    rw [huid]
    simp [refCheckFails, hne, hno]
  exact ⟨create_task_fail t s hr,
    fun id hid => update_task_badref id t s hid hr⟩

/-- Claim C4 amended witness: a non-empty unresolvable `user_id` makes
`create_task` and `update_task` fail with `InvalidReference` on a
concrete store, leaving it unchanged. -/
theorem invalidref_atomicity_amended_witness :
    create_task ⟨"y", none, false, some "zz"⟩ wStore =
      (.error .invalidReference, wStore) ∧
    update_task "t" ⟨"y", none, false, some "zz"⟩ wStore =
      (.error .invalidReference, wStore) := by
  obtain ⟨h1, h2⟩ :=
    invalidref_atomicity_amended wStore "zz" ⟨"y", none, false, some "zz"⟩
      rfl rfl (by decide)
  exact ⟨h1, h2 "t" (by decide)⟩

/-- Claim C1 counterexample: the state reached from the empty store by
`create_task` with `user_id = some ""` is reachable but violates the
non-null referential-integrity invariant: the stored task's `user_id` is
non-null yet names no existing user. -/
theorem referential_integrity_counterexample :
    Reachable (create_task ⟨"x", none, false, some ""⟩ emptyStore).2 ∧
    ¬ RefIntegrity (create_task ⟨"x", none, false, some ""⟩ emptyStore).2 := by
  constructor
  · exact Reachable.step Reachable.init
      (Step.createTask ⟨"x", none, false, some ""⟩ emptyStore)
  · intro h
    have h2 := h ⟨genId 0, "x", none, false, some ""⟩ (by decide) "" rfl
    simp [dictContains, dictGet] at h2

/-- Claim C1 amended: in every reachable store state, every task whose
`user_id` is a non-null, non-empty string references a user id currently
present in the user collection. -/
theorem referential_integrity_amended (s : Store) (h : Reachable s) :
    TruthyRefIntegrity s :=
  (storeInv_reachable h).2.2

/-- Claim C1 amended witness: the invariant holds in the concrete state
reached by creating a user and then a task owned by that user. -/
theorem referential_integrity_amended_witness :
    TruthyRefIntegrity
      (create_task ⟨"x", none, false, some (genId 0)⟩
        (create_user ⟨"n", "e", none⟩ emptyStore).2).2 :=
  referential_integrity_amended _
    (Reachable.step
      (Reachable.step Reachable.init (Step.createUser ⟨"n", "e", none⟩ emptyStore))
      (Step.createTask ⟨"x", none, false, some (genId 0)⟩
        (create_user ⟨"n", "e", none⟩ emptyStore).2))

theorem runCreates_ids_ge (ops : List CreateOp) (s : Store) :
    ∀ i ∈ (runCreates ops s).1, ∃ m, s.nextId ≤ m ∧ i = genId m := by
  induction ops generalizing s with
  | nil =>
      intro i hi
      simp [runCreates] at hi
  | cons op rest ih =>
      cases op with
      | user u =>
          intro i hi
          simp only [runCreates, List.mem_cons] at hi
          rcases hi with hi | hi
          · exact ⟨s.nextId, le_refl _, hi⟩
          · obtain ⟨m, hm, he⟩ := ih (create_user u s).2 i hi
            have hn : (create_user u s).2.nextId = s.nextId + 1 := rfl
            exact ⟨m, by omega, he⟩
      | task t =>
          cases hr : refCheckFails t.user_id s.users_db with
          | true =>
              intro i hi
              simp only [runCreates, create_task_fail t s hr] at hi
              exact ih s i hi
          | false =>
              intro i hi
              simp only [runCreates, create_task_ok t s hr,
                List.mem_cons] at hi
              rcases hi with hi | hi
              · exact ⟨s.nextId, le_refl _, hi⟩
              · obtain ⟨m, hm, he⟩ := ih _ i hi
                simp only at hm
                exact ⟨m, by omega, he⟩

theorem runCreates_nodup (ops : List CreateOp) (s : Store) :
    (runCreates ops s).1.Nodup := by
  induction ops generalizing s with
  | nil => simp [runCreates]
  | cons op rest ih =>
      cases op with
      | user u =>
          simp only [runCreates]
          refine List.nodup_cons.mpr ⟨?_, ih _⟩
          intro hmem
          obtain ⟨m, hm, he⟩ := runCreates_ids_ge rest (create_user u s).2 _ hmem
          have hn : (create_user u s).2.nextId = s.nextId + 1 := rfl
          have : s.nextId = m := genId_inj he
          omega
      | task t =>
          cases hr : refCheckFails t.user_id s.users_db with
          | true =>
              simp only [runCreates, create_task_fail t s hr]
              exact ih s
          | false =>
              simp only [runCreates, create_task_ok t s hr]
              refine List.nodup_cons.mpr ⟨?_, ih _⟩
              intro hmem
              obtain ⟨m, hm, he⟩ := runCreates_ids_ge rest _ _ hmem
              simp only at hm
              have : s.nextId = m := genId_inj he
              omega

theorem freshRun_reachable (ops : List CreateOp) (s : Store)
    (h : Reachable s) : freshRun ops s = true := by
  induction ops generalizing s with
  | nil => rfl
  | cons op rest ih =>
      cases op with
      | user u =>
          simp only [freshRun, Bool.and_eq_true, Bool.not_eq_true']
          constructor
          · exact dictContains_genId_absent _ s.nextId s.nextId
              (storeInv_reachable h).1.1 (le_refl _)
          · exact ih _ (Reachable.step h (Step.createUser u s))
      | task t =>
          cases hr : refCheckFails t.user_id s.users_db with
          | true =>
              simp only [freshRun, create_task_fail t s hr]
              exact ih s h
          | false =>
              simp only [freshRun, create_task_ok t s hr, Bool.and_eq_true,
                Bool.not_eq_true']
              constructor
              · exact dictContains_genId_absent _ s.nextId s.nextId
                  (storeInv_reachable h).1.2 (le_refl _)
              · have hstep := Reachable.step h (Step.createTask t s)
                rw [create_task_ok t s hr] at hstep
                exact ih _ hstep

/-- Claim C9: along any sequence of create calls from a reachable store
state, the returned ids are pairwise distinct, and each id assigned by a
successful create was not live in its collection just before that call. -/
theorem identifier_uniqueness (ops : List CreateOp) (s : Store)
    (h : Reachable s) :
    (runCreates ops s).1.Nodup ∧ freshRun ops s = true :=
  ⟨runCreates_nodup ops s, freshRun_reachable ops s h⟩

/-- Claim C9 witness: a concrete run of three create calls from the empty
store returns pairwise-distinct, fresh ids. -/
theorem identifier_uniqueness_witness :
    (runCreates wOps emptyStore).1.Nodup ∧ freshRun wOps emptyStore = true :=
  identifier_uniqueness wOps emptyStore Reachable.init
